import Mathlib

/-!
Verification of core algorithms of the LightRAG retrieval library
(file src/lightrag/utils.py) via a shallow embedding in Lean 4.

Every definition below is translated from the Python source; line numbers
in doc comments refer to src/lightrag/utils.py.  External capabilities
(the key-value store, the LLM callable, the rerank callable, the tokenizer,
the MD5 digest) are modelled at their interface, as the specification
prescribes.  Python float arithmetic inside the gradient allocator is
modelled by exact rational arithmetic with round-half-to-even, which is
the rounding mode of Python's builtin round().
-/

namespace LightRAG

/-! ## Gradient allocator (utils.py lines 1573-1650) -/

/-- One ranked entity or relation: a dict carrying a pre-sorted list of
chunk ids under the key sorted_chunks (utils.py line 1598/1617,
entity_rel.get with default empty list). -/
structure EntityRel where
  sorted_chunks : List String
deriving DecidableEq, Repr

/-- Python round() on the exact rational value: nearest integer,
ties to even (banker's rounding).  Models int(round(expected)) at
utils.py line 1609. -/
def pyRound (x : ℚ) : ℤ :=
  let f : ℤ := ⌊x⌋
  let r : ℚ := x - (f : ℚ)
  if r < 1/2 then f
  else if 1/2 < r then f + 1
  else if 2 ∣ f then f else f + 1

/-- Expected chunk count per rank, utils.py lines 1602-1609:
ratio = i / (n-1) (the n == 1 guard returns ratio 0),
expected = max - ratio * (max - min), appended as int(round(expected)).
For max_related, min_related : ℕ the exact value lies between the two
bounds, hence is non-negative, so Int.toNat is faithful. -/
def expected_counts (n : ℕ) (max_related_chunks min_related_chunks : ℕ) : List ℕ :=
  (List.range n).map (fun (i : ℕ) =>
    let ratio : ℚ := if 1 < n then (i : ℚ) / ((n : ℚ) - 1) else 0
    let expected : ℚ :=
      (max_related_chunks : ℚ) - ratio * ((max_related_chunks : ℚ) - (min_related_chunks : ℚ))
    (pyRound expected).toNat)

/-- First-round allocation, utils.py lines 1611-1628.  Runs down the
zipped list of (entity, expected count), returning the selected chunks,
the per-entity used counts, and the accumulated remaining quota
(expected - actual, only positive shortfalls contribute; with ℕ
subtraction the guard `if remaining > 0` is implicit). -/
def firstPass : List (EntityRel × ℕ) → List String × List ℕ × ℕ
  | [] => ([], [], 0)
  | (er, expected) :: rest =>
    let actual := min expected er.sorted_chunks.length
    let (sel, used, rem) := firstPass rest
    (er.sorted_chunks.take actual ++ sel, actual :: used, (expected - actual) + rem)

/-- One scan of the second round, utils.py lines 1634-1644: walk the
entities in rank order, give one additional chunk to the first entity
that still has unused chunks (used_counts[i] < len(entity_chunks)),
returning the updated used counts and the allocated chunk; none when the
whole scan allocates nothing. -/
def scanOnce : List EntityRel → List ℕ → Option (List ℕ × String)
  | [], _ => none
  | _ :: _, [] => none
  | er :: rest, u :: us =>
    if u < er.sorted_chunks.length then
      some ((u + 1) :: us, er.sorted_chunks.getD u "")
    else
      match scanOnce rest us with
      | none => none
      | some (us2, c) => some (u :: us2, c)

/-- Second-round allocation, utils.py lines 1630-1648:
`for _ in range(total_remaining)` runs at most the accumulated shortfall
many rounds, each round appending the chunk found by one scan, breaking
as soon as a scan allocates nothing. -/
def secondPass (ers : List EntityRel) : ℕ → List ℕ → List String → List String
  | 0, _, sel => sel
  | k + 1, used, sel =>
    match scanOnce ers used with
    | none => sel
    | some (used2, c) => secondPass ers k used2 (sel ++ [c])

/-- The gradient allocator, utils.py lines 1573-1650
(linear_gradient_weighted_polling).  Empty input returns []; a single
entity returns its first max_related_chunks chunks; otherwise the
two-round allocation runs. -/
def linear_gradient_weighted_polling (ers : List EntityRel)
    (max_related_chunks : ℕ) (min_related_chunks : ℕ := 1) : List String :=
  match ers with
  | [] => []
  | [er] => er.sorted_chunks.take max_related_chunks
  | _ =>
    let counts := expected_counts ers.length max_related_chunks min_related_chunks
    let (sel, used, totrem) := firstPass (ers.zip counts)
    secondPass ers totrem used sel

/-! ### Specification-level allocator (written from the words of the spec,
section 4.4, for the refinement claim): first pass takes
min(target_i, available_i) from the source at rank i, where target_i is
the rounded linear interpolation; the total shortfall is the sum of the
positive parts of target_i - taken_i; the redistribution hands out one
chunk per scan round, in rank order, to the first source with remaining
capacity, for at most totalRemaining rounds, stopping when a full scan
allocates nothing. -/

/-- Spec wording: one redistribution scan in rank order, giving one
additional unused chunk to the first source that still has capacity. -/
def specScan : List EntityRel → List ℕ → Option (List ℕ × String)
  | [], _ => none
  | _ :: _, [] => none
  | er :: rest, u :: us =>
    if u < er.sorted_chunks.length then
      some ((u + 1) :: us, er.sorted_chunks.getD u "")
    else
      match specScan rest us with
      | none => none
      | some (us2, c) => some (u :: us2, c)

/-- Spec wording: redistribute the accumulated shortfall one chunk at a
time, stopping early when an entire scan round allocates nothing. -/
def specRedistribute (ers : List EntityRel) : ℕ → List ℕ → List String → List String
  | 0, _, sel => sel
  | k + 1, used, sel =>
    match specScan ers used with
    | none => sel
    | some (used2, c) => specRedistribute ers k used2 (sel ++ [c])

/-- The allocator as the specification states it for n > 1 sources. -/
def allocateSpec (ers : List EntityRel)
    (max_related_chunks min_related_chunks : ℕ) : List String :=
  let targets := expected_counts ers.length max_related_chunks min_related_chunks
  let pairs := ers.zip targets
  let taken := pairs.map (fun p => min p.2 p.1.sorted_chunks.length)
  let firstSel := pairs.flatMap (fun p => p.1.sorted_chunks.take (min p.2 p.1.sorted_chunks.length))
  let totalRemaining := (pairs.map (fun p => p.2 - min p.2 p.1.sorted_chunks.length)).sum
  specRedistribute ers totalRemaining taken firstSel

/-- Per-source first-pass targets of the allocator: max_related_chunks for
a single source (utils.py line 1599), the rounded linear interpolation
otherwise (lines 1602-1609). -/
def lgwpTargets (ers : List EntityRel) (max_related_chunks min_related_chunks : ℕ) : List ℕ :=
  match ers with
  | [] => []
  | [_] => [max_related_chunks]
  | _ => expected_counts ers.length max_related_chunks min_related_chunks

/-! ## Token truncation (utils.py lines 734-748) -/

/-- The tokenizer capability at its interface (spec section 6): encode
turns text into a sequence of token ids whose length is the token count. -/
structure Tokenizer where
  encode : String → List ℕ

/-- The loop of truncate_list_by_token_size, utils.py lines 743-748:
walk the remaining items, accumulating the running token count; on the
first item that pushes the count over max_token_size return the slice
list_data[:i] of the full list; if the loop finishes, return the full
list. -/
def truncLoop (key : α → String) (tokenizer : Tokenizer) (max_token_size : ℤ)
    (full : List α) : List α → ℤ → ℕ → List α
  | [], _, _ => full
  | d :: rest, tokens, i =>
    let tokens2 := tokens + ((tokenizer.encode (key d)).length : ℤ)
    if max_token_size < tokens2 then full.take i
    else truncLoop key tokenizer max_token_size full rest tokens2 (i + 1)

/-- truncate_list_by_token_size, utils.py lines 734-748: non-positive
budget returns [] (line 741-742), otherwise the accumulate-and-cut loop. -/
def truncate_list_by_token_size (list_data : List α) (key : α → String)
    (max_token_size : ℤ) (tokenizer : Tokenizer) : List α :=
  if max_token_size ≤ 0 then []
  else truncLoop key tokenizer max_token_size list_data list_data 0 0

/-- Token count of a list of items under the accessor and tokenizer:
the sum the loop above accumulates. -/
def tokSum (key : α → String) (tokenizer : Tokenizer) (l : List α) : ℕ :=
  (l.map (fun d => (tokenizer.encode (key d)).length)).sum

/-! ## Result cache (utils.py lines 251-293, 759-842) -/

/-- generate_cache_key, utils.py lines 267-278: the flattened key
{mode}:{cache_type}:{hash}. -/
def generate_cache_key (mode cache_type hash_value : String) : String :=
  mode ++ ":" ++ cache_type ++ ":" ++ hash_value

/-- The persisted cache record, utils.py lines 829-837: the dict stored
under the flattened key.  Field ret is the dict entry named return. -/
structure CacheEntry where
  ret : String
  cache_type : String
  chunk_id : Option String
  original_prompt : String
  queryparam : Option String
deriving DecidableEq, Repr

/-- The external key-value store capability (spec section 6: get-by-id
and upsert on string keys), modelled as an association list. -/
abbrev Store := List (String × CacheEntry)

/-- get_by_id of the store capability. -/
def kvGet (store : Store) (key : String) : Option CacheEntry :=
  (store.find? (fun p => p.1 = key)).map (fun p => p.2)

/-- upsert of the store capability: replace the value at an existing key,
or append a new binding. -/
def kvUpsert (store : Store) (key : String) (v : CacheEntry) : Store :=
  if (store.find? (fun p => p.1 = key)).isSome then
    store.map (fun p => if p.1 = key then (key, v) else p)
  else store ++ [(key, v)]

/-- CacheData, utils.py lines 788-796.  content is a str in every
in-repository call site; the streaming branch of save_to_cache
(hasattr __aiter__, line 811) is unreachable for str content and has no
counterpart here. -/
structure CacheData where
  args_hash : String
  content : String
  prompt : String
  mode : String := "default"
  cache_type : String := "query"
  chunk_id : Option String := none
  queryparam : Option String := none
deriving DecidableEq, Repr

/-- The cache entry that save_to_cache builds, utils.py lines 829-837. -/
def mkCacheEntry (cd : CacheData) : CacheEntry :=
  ⟨cd.content, cd.cache_type, cd.chunk_id, cd.prompt, cd.queryparam⟩

/-- save_to_cache, utils.py lines 799-842.  Returns the store after the
call together with a flag recording whether upsert was performed.
Line 807: storage None or falsy content (empty string) returns without
writing.  Lines 821-826: identical existing content skips the write.
Line 842: otherwise the entry is upserted under the flattened key. -/
def save_to_cache (hashing_kv : Option Store) (cd : CacheData) : Option Store × Bool :=
  match hashing_kv with
  | none => (none, false)
  | some store =>
    if cd.content = "" then (some store, false)
    else
      let flattened_key := generate_cache_key cd.mode cd.cache_type cd.args_hash
      match kvGet store flattened_key with
      | some existing =>
        if existing.ret = cd.content then (some store, false)
        else (some (kvUpsert store flattened_key (mkCacheEntry cd)), true)
      | none => (some (kvUpsert store flattened_key (mkCacheEntry cd)), true)

/-- The two cache-enablement flags read from global_config in
handle_cache (utils.py lines 771, 774) and use_llm_func_with_cache
(line 1440); a missing key reads as false, like dict.get returning None. -/
structure GlobalConfig where
  enable_llm_cache : Bool
  enable_llm_cache_for_entity_extract : Bool

/-- handle_cache, utils.py lines 759-785.  Returns the cached value (the
return field) or none, together with a flag recording whether get_by_id
was called on the store.  Lines 770-775: for mode other than default the
enable_llm_cache flag governs, for mode default the
enable_llm_cache_for_entity_extract flag governs; a disabled flag
returns a miss without touching the store. -/
def handle_cache (hashing_kv : Option Store) (cfg : GlobalConfig)
    (args_hash : String) (mode : String) (cache_type : String) :
    Option String × Bool :=
  match hashing_kv with
  | none => (none, false)
  | some store =>
    if mode ≠ "default" then
      if !cfg.enable_llm_cache then (none, false)
      else
        match kvGet store (generate_cache_key mode cache_type args_hash) with
        | some entry => (some entry.ret, true)
        | none => (none, true)
    else
      if !cfg.enable_llm_cache_for_entity_extract then (none, false)
      else
        match kvGet store (generate_cache_key mode cache_type args_hash) with
        | some entry => (some entry.ret, true)
        | none => (none, true)

/-! ## Cached LLM invocation (utils.py lines 1367-1467) -/

/-- remove_think_tags, utils.py lines 1367-1369: the anchored pattern
(<think>.*?</think>|<think>) with DOTALL removes, from the start of the
text only, everything through the first closing </think> when one
exists, or else just the bare leading <think>; the result is stripped of
surrounding whitespace. -/
def remove_think_tags (text : String) : String :=
  if text.startsWith "<think>" then
    let rest := text.drop 7
    let parts := rest.splitOn "</think>"
    match parts with
    | [] => rest.trim
    | [_] => rest.trim
    | _ :: tail => (String.intercalate "</think>" tail).trim
  else text.trim

/-- Result of one call through use_llm_func_with_cache: the returned
text, the cache store after the call, whether the underlying LLM
capability was invoked (the statistic_data llm_call counter), and
whether the call was served from cache (the llm_cache counter). -/
structure UseLLMResult where
  result : String
  store : Option Store
  llmCalled : Bool
  cacheHit : Bool
deriving DecidableEq, Repr

/-- use_llm_func_with_cache, utils.py lines 1372-1467.  The LLM
capability and the MD5 digest are external and passed as functions; the
history list is modelled by its deterministic serialization (the
json.dumps at line 1403, an empty history being none).  Lines 1402-1406
build the prompt; line 1408 hashes it; lines 1412-1427 look the hash up
through handle_cache with mode default and return a non-falsy cached
value; lines 1437-1438 call the LLM and strip think tags; lines
1440-1450 persist the result only under the entity-extract flag.
The cache_keys_collector argument is dropped: it only accumulates keys
for observability. -/
def use_llm_func_with_cache (argsHash : String → String)
    (input_text : String) (use_llm_func : String → Option String → String)
    (llm_response_cache : Option Store) (cfg : GlobalConfig)
    (history_messages : Option String) (cache_type : String)
    (chunk_id : Option String) : UseLLMResult :=
  match llm_response_cache with
  | some store =>
    let prompt := match history_messages with
      | some h => h ++ "\n" ++ input_text
      | none => input_text
    let arg_hash := argsHash prompt
    let cached := (handle_cache (some store) cfg arg_hash "default" cache_type).1
    match cached with
    | some s =>
      if s ≠ "" then ⟨s, some store, false, true⟩
      else
        let res := remove_think_tags (use_llm_func input_text history_messages)
        if cfg.enable_llm_cache_for_entity_extract then
          ⟨res, (save_to_cache (some store)
            ⟨arg_hash, res, prompt, "default", cache_type, chunk_id, none⟩).1, true, false⟩
        else ⟨res, some store, true, false⟩
    | none =>
      let res := remove_think_tags (use_llm_func input_text history_messages)
      if cfg.enable_llm_cache_for_entity_extract then
        ⟨res, (save_to_cache (some store)
          ⟨arg_hash, res, prompt, "default", cache_type, chunk_id, none⟩).1, true, false⟩
      else ⟨res, some store, true, false⟩
  | none =>
    ⟨remove_think_tags (use_llm_func input_text history_messages), none, true, false⟩

/-! ## Chunk assembly pipeline (utils.py lines 1710-1856) -/

/-- A candidate chunk: its text and the optional rerank score that the
rerank capability may have attached (dict key rerank_score). -/
structure Chunk where
  content : String
  rerank_score : Option ℚ
deriving DecidableEq, Repr

/-- The query parameters process_chunks_unified reads: enable_rerank
(line 1789), chunk_top_k (lines 1790, 1825) and max_total_tokens, the
token budget getattr falls back to at lines 1838-1842 (the further
global_config fallback is folded into this value). -/
structure QueryParam where
  enable_rerank : Bool
  chunk_top_k : Option ℤ
  max_total_tokens : ℤ

/-- The external rerank capability (spec section 6): query, documents and
top_n to a reordered scored list; none models the capability raising. -/
abbrev RerankFn := String → List Chunk → ℤ → Option (List Chunk)

/-- Python list slicing lst[:k]: a non-negative k keeps the first k
items, a negative k drops the last |k|. -/
def pySlice (l : List α) (k : ℤ) : List α :=
  if 0 ≤ k then l.take k.toNat else l.take (l.length - (-k).toNat)

/-- apply_rerank_if_enabled, utils.py lines 1710-1758: pass-through when
reranking is off or the input is empty (line 1730), when no rerank model
is configured (lines 1733-1738, a logged warning), when the call raises
(lines 1756-1758) or returns an empty list (lines 1752-1754); otherwise
the reranked list, cut to top_n when longer (lines 1747-1749). -/
def apply_rerank_if_enabled (query : String) (retrieved_docs : List Chunk)
    (rerank_model_func : Option RerankFn) (enable_rerank : Bool)
    (top_n : ℤ) : List Chunk :=
  if enable_rerank = false ∨ retrieved_docs = [] then retrieved_docs
  else
    match rerank_model_func with
    | none => retrieved_docs
    | some f =>
      match f query retrieved_docs top_n with
      | none => retrieved_docs
      | some reranked =>
        if reranked = [] then retrieved_docs
        else if top_n < (reranked.length : ℤ) then pySlice reranked top_n
        else reranked

/-- The score-filter stage of process_chunks_unified, utils.py lines
1799-1822: when reranking is enabled and chunks remain, and the resolved
min_rerank_score is positive, keep exactly the chunks whose rerank_score
(default 1.0 when the field is missing, line 1808-1810) is at least the
threshold (line 1811); a non-positive threshold leaves the list
untouched (line 1802). -/
def rerank_score_filter (enable_rerank : Bool) (min_rerank_score : ℚ)
    (chunks : List Chunk) : List Chunk :=
  if enable_rerank ∧ chunks ≠ [] then
    if 0 < min_rerank_score then
      chunks.filter (fun c => min_rerank_score ≤ c.rerank_score.getD 1)
    else chunks
  else chunks

/-- process_chunks_unified, utils.py lines 1761-1856.  The fixed stage
order: rerank (lines 1788-1797, with top_n = chunk_top_k or the input
length, Python or treating 0 as falsy), score filter (lines 1799-1822),
top-k cap (lines 1824-1830), token truncation (lines 1832-1855).
min_rerank_score is the optional global_config entry, defaulting to 0.5
(line 1801); an absent tokenizer skips stage 4 (line 1834).  The early
returns inside the source collapse here: every later stage maps the
empty list to itself. -/
def process_chunks_unified (query : String) (unique_chunks : List Chunk)
    (query_param : QueryParam) (min_rerank_score : Option ℚ)
    (rerank_model_func : Option RerankFn) (tokenizer : Option Tokenizer)
    (chunk_token_limit : Option ℤ) : List Chunk :=
  if unique_chunks = [] then []
  else
    let c1 :=
      if query_param.enable_rerank ∧ query ≠ "" then
        apply_rerank_if_enabled query unique_chunks rerank_model_func
          query_param.enable_rerank
          (match query_param.chunk_top_k with
           | some k => if k = 0 then (unique_chunks.length : ℤ) else k
           | none => (unique_chunks.length : ℤ))
      else unique_chunks
    let c2 := rerank_score_filter query_param.enable_rerank
      (min_rerank_score.getD (1/2)) c1
    let c3 :=
      match query_param.chunk_top_k with
      | some k => if 0 < k ∧ k < (c2.length : ℤ) then c2.take k.toNat else c2
      | none => c2
    match tokenizer with
    | some tz =>
      if c3 = [] then c3
      else
        truncate_list_by_token_size c3 (fun c => c.content)
          (chunk_token_limit.getD query_param.max_total_tokens) tz
    | none => c3

/-! ## Priority scheduler: queue discipline (utils.py lines 312-591) -/

/-- One pending call in the priority queue: the tuple
(priority, count, future, args, kwargs) that wait_func puts at lines
549/559, restricted to its ordering-relevant fields -- the future is
never reached by tuple comparison because count values are unique. -/
structure SchedEntry where
  pri : ℤ
  seq : ℕ
deriving DecidableEq, Repr

/-- Tuple order on queue entries: priority first, then the sequence
counter -- the lexicographic comparison heapq applies to
(priority, count, ...) tuples. -/
def entryLe (a b : SchedEntry) : Prop :=
  a.pri < b.pri ∨ (a.pri = b.pri ∧ a.seq ≤ b.seq)

instance (a b : SchedEntry) : Decidable (entryLe a b) := by
  unfold entryLe; infer_instance

/-- asyncio.PriorityQueue.get: remove the least entry of the queue in
tuple order (the heapq pop inside the queue used at line 353). -/
def popMin : List SchedEntry → Option (SchedEntry × List SchedEntry)
  | [] => none
  | e :: es =>
    match popMin es with
    | none => some (e, [])
    | some (m, rest) => if entryLe e m then some (e, es) else some (m, e :: rest)

/-- The ordering-relevant state of one decorated function: the counter
(line 330), the pending queue, and the ghost list of sequence values
handed out so far, in submission order. -/
structure SchedState where
  counter : ℕ
  queue : List SchedEntry
  assigned : List ℕ
deriving DecidableEq, Repr

/-- The state final_decro closes over before any call: counter = 0,
empty queue (lines 327-330). -/
def initSched : SchedState := ⟨0, [], []⟩

/-- One submission through wait_func, lines 537-559: read the counter
under the lock, increment it, and put (priority, count, ...) into the
queue.  The asyncio event loop runs the read-increment atomically. -/
def submitCall (s : SchedState) (p : ℤ) : SchedState :=
  ⟨s.counter + 1, s.queue ++ [⟨p, s.counter⟩], s.assigned ++ [s.counter]⟩

/-- The scheduler transitions visible to the queue discipline: a
submission by any caller, or a worker dequeuing the least pending entry
(line 353). -/
inductive SchedStep : SchedState → SchedState → Prop
  | submit (s : SchedState) (p : ℤ) : SchedStep s (submitCall s p)
  | dequeue (s : SchedState) (e : SchedEntry) (q2 : List SchedEntry) :
      popMin s.queue = some (e, q2) → SchedStep s ⟨s.counter, q2, s.assigned⟩

/-- States reachable over the scheduler lifetime. -/
inductive SchedReach : SchedState → Prop
  | init : SchedReach initSched
  | step {s t : SchedState} : SchedReach s → SchedStep s t → SchedReach t

/-! ## Worker pool: concurrency bound (utils.py lines 340-470) -/

/-- The worker-pool state of one decorated function: the number of live
worker tasks (the tasks set, line 328), the number of workers currently
executing a payload (inside the await at line 365), and the
initialization latch (line 332). -/
structure PoolState where
  workers : ℕ
  busy : ℕ
  initialized : Bool
deriving DecidableEq, Repr

/-- Pool state before first submission. -/
def initPool : PoolState := ⟨0, 0, false⟩

/-- Worker-pool transitions.  ensure and health top the pool up by
workers_needed = max_size - active (lines 460-463 and 403-411; Python
range of a negative number is empty, matching ℕ subtraction); start and
finish bracket one payload execution inside a worker loop iteration
(line 365) -- a worker executes at most one payload at a time, so start
requires an idle worker; exitIdle is a worker leaving its loop between
payloads (shutdown observed, line 343); cancelBusy is a worker cancelled
mid-execution (shutdown, line 495).  The event loop runs each top-up
body without interleaving: there is no await between computing
workers_needed and spawning. -/
inductive PoolStep (max_size : ℕ) : PoolState → PoolState → Prop
  | ensure (s : PoolState) : s.initialized = false →
      PoolStep max_size s ⟨s.workers + (max_size - s.workers), s.busy, true⟩
  | health (s : PoolState) :
      PoolStep max_size s ⟨s.workers + (max_size - s.workers), s.busy, s.initialized⟩
  | start (s : PoolState) : s.busy < s.workers →
      PoolStep max_size s ⟨s.workers, s.busy + 1, s.initialized⟩
  | finish (s : PoolState) : 0 < s.busy →
      PoolStep max_size s ⟨s.workers, s.busy - 1, s.initialized⟩
  | exitIdle (s : PoolState) : s.busy < s.workers →
      PoolStep max_size s ⟨s.workers - 1, s.busy, s.initialized⟩
  | cancelBusy (s : PoolState) : 0 < s.busy →
      PoolStep max_size s ⟨s.workers - 1, s.busy - 1, s.initialized⟩

/-- Pool states reachable over the scheduler lifetime. -/
inductive PoolReach (max_size : ℕ) : PoolState → Prop
  | init : PoolReach max_size initPool
  | step {s t : PoolState} : PoolReach max_size s → PoolStep max_size s t →
      PoolReach max_size t

/-! ## Concrete instances used by witnesses and counterexamples -/

/-- Three ranked sources with ten chunks each (spec section 8, the
gradient-allocation-totals property). -/
def ex3sources : List EntityRel :=
  [⟨["a0", "a1", "a2", "a3", "a4", "a5", "a6", "a7", "a8", "a9"]⟩,
   ⟨["b0", "b1", "b2", "b3", "b4", "b5", "b6", "b7", "b8", "b9"]⟩,
   ⟨["c0", "c1", "c2", "c3", "c4", "c5", "c6", "c7", "c8", "c9"]⟩]

/-- Three ranked sources where a chunk id is shared between ranks 0 and
1 and where redistribution hands rank 1 a chunk after rank 2 already
contributed. -/
def exSharedChunk : List EntityRel := [⟨["a"]⟩, ⟨["a", "c", "d"]⟩, ⟨["e"]⟩]

/-- Items whose per-item token counts are 5, 5, 5 under
charTokenizer. -/
def exTruncItems : List String := ["aaaaa", "bbbbb", "ccccc"]

/-- A tokenizer whose token count of a text is its character count. -/
def charTokenizer : Tokenizer := ⟨fun s => List.range s.length⟩

/-- A store holding one entry with value x under the key m:t:h. -/
def exStoreX : Store := [("m:t:h", ⟨"x", "t", none, "p", none⟩)]

/-- A write of empty content aimed at the key m:t:h. -/
def exEmptyWrite : CacheData := ⟨"h", "", "p", "m", "t", none, none⟩

/-- A store holding one entry whose cached value is the empty string,
under the flattened key of mode default, cache type extract, hash h. -/
def exStoreEmptyVal : Store := [("default:extract:h", ⟨"", "extract", none, "p", none⟩)]

/-- A candidate chunk carrying no rerank_score field. -/
def exChunkNoScore : Chunk := ⟨"x", none⟩

/-- Query parameters with reranking enabled and no top-k cap. -/
def exQpRerank : QueryParam := ⟨true, none, 1000⟩

/-- A scheduler state after two submissions with equal priority. -/
def exSched : SchedState := submitCall (submitCall initSched 5) 5

/-- A pool state with two live workers, one executing. -/
def exPool : PoolState := ⟨2, 1, true⟩

/-! ## Theorems -/

theorem poolInv {max_size : ℕ} {s : PoolState} (h : PoolReach max_size s) :
    s.busy ≤ s.workers ∧ s.workers ≤ max_size := by
  induction h with
  | init => exact ⟨Nat.le_refl 0, Nat.zero_le _⟩
  | step _ hstep ih =>
    obtain ⟨ih1, ih2⟩ := ih
    cases hstep <;> refine ⟨?_, ?_⟩ <;> dsimp only <;> omega

/-- C6: in every state the worker pool can reach over the scheduler
lifetime -- lazy initialization, health-check top-ups, payload starts
and finishes, worker exits and cancellations -- the number of payloads
executing simultaneously never exceeds the configured max_size, because
initialization and the health check only ever top the live-worker count
up to max_size and each worker executes at most one payload at a time. -/
theorem claim_C6_concurrency_bound (max_size : ℕ) (s : PoolState)
    (h : PoolReach max_size s) : s.busy ≤ max_size :=
  le_trans (poolInv h).1 (poolInv h).2

/-- Witness for C6: with max_size = 2, the state reached by one
initialization top-up followed by one payload start has one executing
payload, within the bound. -/
theorem claim_C6_witness : exPool.busy ≤ 2 :=
  claim_C6_concurrency_bound 2 exPool
    (PoolReach.step
      (PoolReach.step PoolReach.init (PoolStep.ensure initPool rfl))
      (PoolStep.start ⟨2, 0, true⟩ (by decide)))

theorem entryLe_refl (a : SchedEntry) : entryLe a a := by
  unfold entryLe; omega

theorem entryLe_trans {a b c : SchedEntry} (h1 : entryLe a b) (h2 : entryLe b c) :
    entryLe a c := by
  unfold entryLe at *; omega

theorem entryLe_total (a b : SchedEntry) : entryLe a b ∨ entryLe b a := by
  unfold entryLe; omega

theorem popMin_none {q : List SchedEntry} (h : popMin q = none) : q = [] := by
  cases q with
  | nil => rfl
  | cons e es =>
    simp only [popMin] at h
    cases hm : popMin es with
    | none => rw [hm] at h; exact absurd h (by simp)
    | some p =>
      rw [hm] at h
      by_cases hle : entryLe e p.1 <;> simp [hle] at h

theorem popMin_spec {q : List SchedEntry} {e : SchedEntry} {q2 : List SchedEntry}
    (h : popMin q = some (e, q2)) :
    e ∈ q ∧ (∀ b ∈ q, entryLe e b) ∧ q.Perm (e :: q2) := by
  induction q generalizing e q2 with
  | nil => simp [popMin] at h
  | cons a es ih =>
    simp only [popMin] at h
    cases hm : popMin es with
    | none =>
      rw [hm] at h
      have hes : es = [] := popMin_none hm
      subst hes
      simp only [Option.some.injEq, Prod.mk.injEq] at h
      obtain ⟨rfl, rfl⟩ := h
      refine ⟨List.mem_singleton_self _, ?_, List.Perm.refl _⟩
      intro b hb
      rw [List.mem_singleton] at hb
      subst hb
      exact entryLe_refl _
    | some p =>
      obtain ⟨m, rest⟩ := p
      rw [hm] at h
      have hrec := ih hm
      by_cases hle : entryLe a m
      · simp only [hle, if_pos, Option.some.injEq, Prod.mk.injEq] at h
        obtain ⟨rfl, rfl⟩ := h
        refine ⟨List.mem_cons_self _ _, ?_, List.Perm.refl _⟩
        intro b hb
        rcases List.mem_cons.mp hb with rfl | hb
        · exact entryLe_refl _
        · exact entryLe_trans hle (hrec.2.1 b hb)
      · simp only [hle, if_neg, not_false_iff, Option.some.injEq, Prod.mk.injEq] at h
        obtain ⟨rfl, rfl⟩ := h
        refine ⟨List.mem_cons_of_mem _ hrec.1, ?_, ?_⟩
        · intro b hb
          rcases List.mem_cons.mp hb with rfl | hb
          · rcases entryLe_total b m with hba | hab
            · exact absurd hba hle
            · exact hab
          · exact hrec.2.1 b hb
        · exact (hrec.2.2.cons a).trans (List.Perm.swap m a rest)

theorem schedInv {s : SchedState} (h : SchedReach s) :
    s.assigned = List.range s.counter ∧
    (∀ e ∈ s.queue, e.seq < s.counter) ∧
    (s.queue.map (fun e => e.seq)).Nodup := by
  induction h with
  | init => exact ⟨rfl, by intro e he; simp [initSched] at he, by simp [initSched]⟩
  | step _ hstep ih =>
    obtain ⟨ha, hlt, hnd⟩ := ih
    cases hstep with
    | submit p =>
      refine ⟨?_, ?_, ?_⟩
      · simp [submitCall, ha, List.range_succ]
      · intro e he
        simp only [submitCall, List.mem_append, List.mem_singleton] at he
        rcases he with he | rfl
        · exact Nat.lt_succ_of_lt (hlt e he)
        · exact Nat.lt_succ_self _
      · simp only [submitCall, List.map_append, List.map_cons, List.map_nil]
        rw [List.nodup_append]
        refine ⟨hnd, List.nodup_singleton _, ?_⟩
        intro x hx hx2
        simp only [List.mem_singleton] at hx2
        subst hx2
        obtain ⟨e, he, hseq⟩ := List.mem_map.mp hx
        exact absurd (hseq ▸ hlt e he) (Nat.lt_irrefl _)
    | dequeue e q2 hpop =>
      have hperm := (popMin_spec hpop).2.2
      refine ⟨ha, ?_, ?_⟩
      · intro b hb
        exact hlt b (hperm.mem_iff.mpr (List.mem_cons_of_mem _ hb))
      · have h2 : ((e :: q2).map (fun x => x.seq)).Nodup :=
          ((hperm.map (fun x => x.seq)).nodup_iff).mp hnd
        exact (List.nodup_cons.mp h2).2

/-- C2: over the scheduler lifetime, the sequence counter values handed
out by wait_func are exactly 0, 1, 2, ... in submission order -- globally
unique and strictly increasing -- and a worker dequeue always removes a
pending entry that is least in (priority, sequence) lexicographic order,
so of two pending calls with equal priority the one submitted earlier
(smaller sequence) is serviced first. -/
theorem claim_C2_priority_fifo (s : SchedState) (h : SchedReach s) :
    (s.assigned = List.range s.counter ∧ s.assigned.Pairwise (· < ·)) ∧
    (∀ a ∈ s.queue, ∀ b ∈ s.queue, a.seq = b.seq → a = b) ∧
    (∀ e q2, popMin s.queue = some (e, q2) →
      e ∈ s.queue ∧ ∀ b ∈ s.queue, entryLe e b) := by
  obtain ⟨ha, _hlt, hnd⟩ := schedInv h
  refine ⟨⟨ha, ?_⟩, ?_, ?_⟩
  · rw [ha]; exact List.pairwise_lt_range _
  · intro a hb b hb2 hseq
    exact List.inj_on_of_nodup_map hnd hb hb2 hseq
  · intro e q2 hpop
    exact ⟨(popMin_spec hpop).1, (popMin_spec hpop).2.1⟩

/-- Witness for C2: after two submissions with equal priority 5, the
ghost list of assigned sequence values is [0, 1] = range 2. -/
theorem claim_C2_witness : exSched.assigned = List.range exSched.counter :=
  (claim_C2_priority_fifo exSched
    (SchedReach.step
      (SchedReach.step SchedReach.init (SchedStep.submit initSched 5))
      (SchedStep.submit (submitCall initSched 5) 5))).1.1

/-- C4 as amended: a save_to_cache call whose content equals the value
already stored under the same flattened (mode, cache_type, hash) key
performs no upsert and leaves the store unchanged (a success, not an
error); when the existing value differs AND the new content is
non-empty, the entry is replaced wholesale by one upsert.  (The
non-emptiness condition is forced by the falsy-content guard at
utils.py line 807; see the counterexample.) -/
theorem claim_C4_idempotent_store (store : Store) (cd : CacheData) :
    (∀ e, kvGet store (generate_cache_key cd.mode cd.cache_type cd.args_hash) = some e →
      e.ret = cd.content → save_to_cache (some store) cd = (some store, false)) ∧
    (cd.content ≠ "" →
      (∀ e, kvGet store (generate_cache_key cd.mode cd.cache_type cd.args_hash) = some e →
        e.ret ≠ cd.content) →
      save_to_cache (some store) cd =
        (some (kvUpsert store (generate_cache_key cd.mode cd.cache_type cd.args_hash)
          (mkCacheEntry cd)), true)) := by
  constructor
  · intro e hget hret
    by_cases hempty : cd.content = ""
    · simp [save_to_cache, hempty]
    · simp [save_to_cache, hempty, hget, hret]
  · intro hempty hdiff
    cases hget : kvGet store (generate_cache_key cd.mode cd.cache_type cd.args_hash) with
    | none => simp [save_to_cache, hempty, hget]
    | some e => simp [save_to_cache, hempty, hget, hdiff e hget]

/-- Counterexample to C4 as stated: the store holds value x under the
key m:t:h; a save of differing (empty) content to the same key performs
no upsert at all -- the entry is not replaced -- because save_to_cache
returns on falsy content before comparing. -/
theorem claim_C4_counterexample :
    kvGet exStoreX (generate_cache_key exEmptyWrite.mode exEmptyWrite.cache_type
      exEmptyWrite.args_hash) = some ⟨"x", "t", none, "p", none⟩ ∧
    ("x" : String) ≠ exEmptyWrite.content ∧
    save_to_cache (some exStoreX) exEmptyWrite = (some exStoreX, false) ∧
    some exStoreX ≠
      some (kvUpsert exStoreX (generate_cache_key exEmptyWrite.mode
        exEmptyWrite.cache_type exEmptyWrite.args_hash) (mkCacheEntry exEmptyWrite)) := by
  refine ⟨?_, ?_, ?_, ?_⟩ <;> decide

/-- Witness for C4: saving the value x to a key that already stores x
leaves the store untouched, and saving the differing non-empty value y
replaces the entry. -/
theorem claim_C4_witness :
    save_to_cache (some exStoreX) ⟨"h", "x", "p", "m", "t", none, none⟩ =
      (some exStoreX, false) ∧
    save_to_cache (some exStoreX) ⟨"h", "y", "p", "m", "t", none, none⟩ =
      (some (kvUpsert exStoreX "m:t:h"
        (mkCacheEntry ⟨"h", "y", "p", "m", "t", none, none⟩)), true) :=
  ⟨(claim_C4_idempotent_store exStoreX ⟨"h", "x", "p", "m", "t", none, none⟩).1
      ⟨"x", "t", none, "p", none⟩ (by decide) rfl,
   (claim_C4_idempotent_store exStoreX ⟨"h", "y", "p", "m", "t", none, none⟩).2
      (by decide) (by decide)⟩

/-- C7: cache enablement is purpose-scoped.  handle_cache with mode
default is governed by enable_llm_cache_for_entity_extract and with any
other mode by enable_llm_cache; with the governing flag off the lookup
reports a miss without calling get_by_id on the store (the Bool
component).  On the store side, use_llm_func_with_cache (which always
operates in mode default) performs no write when the entity-extract
flag is off: the call succeeds with the plain LLM result and the store
is returned unchanged. -/
theorem claim_C7_purpose_scoped (store : Store) (cfg : GlobalConfig)
    (args_hash mode cache_type input : String)
    (argsHash : String → String) (llm : String → Option String → String)
    (hist : Option String) (chunk : Option String) :
    (mode = "default" → cfg.enable_llm_cache_for_entity_extract = false →
      handle_cache (some store) cfg args_hash mode cache_type = (none, false)) ∧
    (mode ≠ "default" → cfg.enable_llm_cache = false →
      handle_cache (some store) cfg args_hash mode cache_type = (none, false)) ∧
    (cfg.enable_llm_cache_for_entity_extract = false →
      use_llm_func_with_cache argsHash input llm (some store) cfg hist cache_type chunk =
        ⟨remove_think_tags (llm input hist), some store, true, false⟩) := by
  refine ⟨?_, ?_, ?_⟩
  · intro hmode hflag
    simp [handle_cache, hmode, hflag]
  · intro hmode hflag
    simp [handle_cache, hmode, hflag]
  · intro hflag
    simp [use_llm_func_with_cache, handle_cache, hflag]

/-- Witness for C7: with both flags off, a default-mode lookup misses
without touching a store that does hold an entry for the key. -/
theorem claim_C7_witness :
    handle_cache (some exStoreX) ⟨false, false⟩ "h" "default" "t" = (none, false) :=
  (claim_C7_purpose_scoped exStoreX ⟨false, false⟩ "h" "default" "t" ""
    (fun s => s) (fun s _ => s) none none).1 rfl rfl

/-- C10: an empty-string result is never cached and never served.
save_to_cache returns without writing whenever the content is the empty
string, and when the value stored under the flattened default-mode key
is the empty string, use_llm_func_with_cache does not return it: the
falsy-value test at utils.py line 1419 treats it as a miss and the
underlying LLM capability is invoked, whatever the enablement flags. -/
theorem claim_C10_empty_handling (store : Store) (cd : CacheData)
    (cfg : GlobalConfig) (argsHash : String → String)
    (llm : String → Option String → String) (input cache_type : String)
    (hist : Option String) (chunk : Option String) :
    (cd.content = "" → save_to_cache (some store) cd = (some store, false)) ∧
    (∀ e : CacheEntry, e.ret = "" →
      kvGet store (generate_cache_key "default" cache_type
        (argsHash (match hist with
          | some h2 => h2 ++ "\n" ++ input
          | none => input))) = some e →
      (use_llm_func_with_cache argsHash input llm (some store) cfg hist
        cache_type chunk).llmCalled = true ∧
      (use_llm_func_with_cache argsHash input llm (some store) cfg hist
        cache_type chunk).result = remove_think_tags (llm input hist)) := by
  constructor
  · intro hempty
    simp [save_to_cache, hempty]
  · intro e hret hget
    cases hflag : cfg.enable_llm_cache_for_entity_extract with
    | false =>
      simp [use_llm_func_with_cache, handle_cache, hflag]
    | true =>
      cases hist with
      | none =>
        simp only [use_llm_func_with_cache, handle_cache, hflag,
          Bool.not_true, Bool.false_eq_true, if_false, hget]
        simp [hret]
      | some h2 =>
        simp only [use_llm_func_with_cache, handle_cache, hflag,
          Bool.not_true, Bool.false_eq_true, if_false, hget]
        simp [hret]

/-- Witness for C10: a store holding the empty string under the key
default:extract:h neither blocks the write-skip half (an empty write is
a no-op) nor is served: the LLM runs and its output is returned. -/
theorem claim_C10_witness :
    (use_llm_func_with_cache (fun s => s) "h" (fun _ _ => "out")
      (some exStoreEmptyVal) ⟨true, true⟩ none "extract" none).llmCalled = true ∧
    (use_llm_func_with_cache (fun s => s) "h" (fun _ _ => "out")
      (some exStoreEmptyVal) ⟨true, true⟩ none "extract" none).result =
      remove_think_tags "out" :=
  (claim_C10_empty_handling exStoreEmptyVal ⟨"h", "", "p", "m", "t", none, none⟩
    ⟨true, true⟩ (fun s => s) (fun _ _ => "out") "h" "extract" none none).2
    ⟨"", "extract", none, "p", none⟩ rfl (by decide)

/-- C8 as amended: when reranking is enabled, the score-filter stage of
process_chunks_unified with a positive resolved min_rerank_score
(default 0.5) keeps, in order, exactly the candidates whose rerank_score
(default 1.0 when the field is missing) is at least the threshold; a
min_rerank_score of exactly 0 disables the stage entirely; and a chunk
lacking a score survives the filter whenever min_rerank_score ≤ 1 --
its default score 1.0 is the top of the normal score range (thresholds
above 1 drop such chunks; see the counterexample).  The last conjunct
places the stage inside the pipeline: with no top-k cap and no
tokenizer, the pipeline output is the score-filter stage output. -/
theorem claim_C8_score_filter (enable : Bool) (mrs : Option ℚ)
    (chunks : List Chunk) (rf : Option RerankFn) (mtt : ℤ) :
    (enable = true → 0 < mrs.getD (1/2) →
      rerank_score_filter enable (mrs.getD (1/2)) chunks =
        chunks.filter (fun c => mrs.getD (1/2) ≤ c.rerank_score.getD 1)) ∧
    (mrs.getD (1/2) = 0 →
      rerank_score_filter enable (mrs.getD (1/2)) chunks = chunks) ∧
    (∀ c ∈ chunks, c.rerank_score = none → mrs.getD (1/2) ≤ 1 →
      c ∈ rerank_score_filter enable (mrs.getD (1/2)) chunks) ∧
    (enable = true →
      process_chunks_unified "" chunks ⟨enable, none, mtt⟩ mrs rf none none =
        rerank_score_filter enable (mrs.getD (1/2)) chunks) := by
  refine ⟨?_, ?_, ?_, ?_⟩
  · intro hen hpos
    unfold rerank_score_filter
    by_cases hne : chunks = []
    · subst hne; simp
    · rw [if_pos ⟨hen, hne⟩, if_pos hpos]
  · intro hzero
    unfold rerank_score_filter
    by_cases hcond : enable = true ∧ chunks ≠ []
    · rw [if_pos hcond, if_neg (by rw [hzero]; exact lt_irrefl 0)]
    · rw [if_neg hcond]
  · intro c hc hnone hle
    unfold rerank_score_filter
    by_cases hcond : enable = true ∧ chunks ≠ []
    · rw [if_pos hcond]
      by_cases hpos : 0 < mrs.getD (1/2)
      · rw [if_pos hpos]
        refine List.mem_filter.mpr ⟨hc, ?_⟩
        rw [hnone]
        simpa using hle
      · rw [if_neg hpos]
        exact hc
    · rw [if_neg hcond]
      exact hc
  · intro hen
    by_cases hne : chunks = []
    · subst hne; simp [process_chunks_unified, rerank_score_filter]
    · simp [process_chunks_unified, hne, rerank_score_filter]

/-- Counterexample to C8 as stated: with reranking enabled and the legal
configuration min_rerank_score = 2, a chunk lacking a rerank_score does
not survive the filter -- the pipeline drops it (its default score 1.0 is
below the threshold), so unscored chunks do not ALWAYS survive. -/
theorem claim_C8_counterexample :
    exChunkNoScore.rerank_score = none ∧
    process_chunks_unified "q" [exChunkNoScore] exQpRerank (some 2) none none none
      = [] := by
  refine ⟨rfl, ?_⟩
  decide

/-- Witness for C8: with threshold 1, a chunk scored 0 is dropped while
a scored 1 chunk and an unscored chunk (defaulting to 1.0) survive, in
order. -/
theorem claim_C8_witness :
    rerank_score_filter true ((some 1 : Option ℚ).getD (1/2))
      [⟨"a", some 1⟩, ⟨"b", some 0⟩, exChunkNoScore] =
      [⟨"a", some 1⟩, exChunkNoScore] :=
  ((claim_C8_score_filter true (some 1)
      [⟨"a", some 1⟩, ⟨"b", some 0⟩, exChunkNoScore] none 0).1
    rfl (by norm_num)).trans (by decide)

theorem tokSum_append {α : Type} (key : α → String) (tz : Tokenizer)
    (l1 l2 : List α) : tokSum key tz (l1 ++ l2) = tokSum key tz l1 + tokSum key tz l2 := by
  simp [tokSum]

theorem tokSum_take_mono {α : Type} (key : α → String) (tz : Tokenizer)
    (l : List α) {m n : ℕ} (h : m ≤ n) :
    tokSum key tz (l.take m) ≤ tokSum key tz (l.take n) := by
  have hsub : List.Sublist (l.take m) (l.take n) :=
    (List.take_prefix_take_left l h).sublist
  exact List.Sublist.sum_le_sum (hsub.map _) (fun a _ => Nat.zero_le a)

theorem truncLoop_spec {α : Type} (key : α → String) (tz : Tokenizer)
    (max_token_size : ℤ) (rest : List α) : ∀ done : List α,
    (tokSum key tz done : ℤ) ≤ max_token_size →
    truncLoop key tz max_token_size (done ++ rest) rest
      (tokSum key tz done) done.length <+: (done ++ rest) ∧
    (tokSum key tz (truncLoop key tz max_token_size (done ++ rest) rest
      (tokSum key tz done) done.length) : ℤ) ≤ max_token_size ∧
    ∀ m, m ≤ (done ++ rest).length →
      (tokSum key tz ((done ++ rest).take m) : ℤ) ≤ max_token_size →
      m ≤ (truncLoop key tz max_token_size (done ++ rest) rest
        (tokSum key tz done) done.length).length := by
  induction rest with
  | nil =>
    intro done hdone
    simp only [truncLoop, List.append_nil]
    exact ⟨List.prefix_refl _, hdone, fun m hm _ => hm⟩
  | cons d ds ih =>
    intro done hdone
    simp only [truncLoop]
    by_cases hover : max_token_size < tokSum key tz done + ((tz.encode (key d)).length : ℤ)
    · rw [if_pos hover]
      have htake : (done ++ d :: ds).take done.length = done := List.take_left done _
      rw [htake]
      refine ⟨List.prefix_append _ _, hdone, ?_⟩
      intro m hm hsum
      by_contra hgt
      push_neg at hgt
      have hm1 : done.length + 1 ≤ m := hgt
      have htake1 : (done ++ d :: ds).take (done.length + 1) = done ++ [d] := by
        rw [List.take_append]
        simp
      have hmono : tokSum key tz ((done ++ d :: ds).take (done.length + 1)) ≤
          tokSum key tz ((done ++ d :: ds).take m) :=
        tokSum_take_mono key tz _ hm1
      rw [htake1, tokSum_append] at hmono
      have : (tokSum key tz done + tokSum key tz [d] : ℤ) ≤ max_token_size := by
        calc (tokSum key tz done + tokSum key tz [d] : ℤ)
            = ((tokSum key tz done + tokSum key tz [d] : ℕ) : ℤ) := by push_cast; ring
          _ ≤ (tokSum key tz ((done ++ d :: ds).take m) : ℤ) := by exact_mod_cast hmono
          _ ≤ max_token_size := hsum
      have hsingle : tokSum key tz [d] = (tz.encode (key d)).length := by
        simp [tokSum]
      rw [hsingle] at this
      omega
    · rw [if_neg hover]
      have heq1 : done ++ d :: ds = (done ++ [d]) ++ ds := by simp
      have heq2 : (tokSum key tz done : ℤ) + ((tz.encode (key d)).length : ℤ) =
          (tokSum key tz (done ++ [d]) : ℤ) := by
        rw [tokSum_append]
        have : tokSum key tz [d] = (tz.encode (key d)).length := by simp [tokSum]
        rw [this]
        push_cast
        ring
      have heq3 : done.length + 1 = (done ++ [d]).length := by simp
      rw [heq1, heq2, heq3]
      exact ih (done ++ [d]) (by rw [← heq2]; omega)

/-- C3: truncate_list_by_token_size returns, for a positive budget, the
longest prefix of its input whose cumulative encoded-token count stays
at or under the budget (it is a prefix, its token sum is within budget,
and no within-budget prefix is longer), and for any non-positive budget
the empty list; in particular three items of five tokens each with
budget 10 yield exactly the first two items. -/
theorem claim_C3_token_truncation :
    (∀ (α : Type) (list_data : List α) (key : α → String) (max_token_size : ℤ)
      (tz : Tokenizer),
      (max_token_size ≤ 0 →
        truncate_list_by_token_size list_data key max_token_size tz = []) ∧
      (0 < max_token_size →
        truncate_list_by_token_size list_data key max_token_size tz <+: list_data ∧
        (tokSum key tz (truncate_list_by_token_size list_data key max_token_size tz) : ℤ)
          ≤ max_token_size ∧
        ∀ p, p <+: list_data → (tokSum key tz p : ℤ) ≤ max_token_size →
          p.length ≤ (truncate_list_by_token_size list_data key max_token_size tz).length)) ∧
    truncate_list_by_token_size exTruncItems (fun s => s) 10 charTokenizer =
      ["aaaaa", "bbbbb"] := by
  constructor
  · intro α list_data key max_token_size tz
    constructor
    · intro hle
      simp [truncate_list_by_token_size, hle]
    · intro hpos
      have hspec := truncLoop_spec key tz max_token_size list_data []
        (by simp [tokSum]; omega)
      simp only [List.nil_append, List.length_nil] at hspec
      have hzero : tokSum key tz ([] : List α) = 0 := by simp [tokSum]
      rw [hzero] at hspec
      have hdef : truncate_list_by_token_size list_data key max_token_size tz =
          truncLoop key tz max_token_size list_data list_data 0 0 := by
        simp [truncate_list_by_token_size, not_le.mpr hpos]
      rw [hdef]
      refine ⟨hspec.1, hspec.2.1, ?_⟩
      intro p hp hsum
      have hlen : p.length ≤ list_data.length := hp.length_le
      have hpt : p = list_data.take p.length := List.prefix_iff_eq_take.mp hp
      exact hspec.2.2 p.length hlen (by rw [← hpt]; exact hsum)
  · decide

/-- Witness for C3: zero budget returns the empty list on the concrete
three-item input. -/
theorem claim_C3_witness :
    truncate_list_by_token_size exTruncItems (fun s => s) 0 charTokenizer = [] :=
  (claim_C3_token_truncation.1 String exTruncItems (fun s => s) 0 charTokenizer).1
    (by decide)

theorem pyRound_intCast (n : ℤ) : pyRound ((n : ℚ)) = n := by
  unfold pyRound
  rw [Int.floor_intCast]
  norm_num

theorem pyRound_toNat_eq {x : ℚ} {m : ℕ} (h : x = ((m : ℤ) : ℚ)) :
    (pyRound x).toNat = m := by
  rw [h, pyRound_intCast]
  exact Int.toNat_natCast m

theorem expected_counts_362 : expected_counts 3 6 2 = [6, 4, 2] := by
  have h : List.range 3 = [0, 1, 2] := rfl
  unfold expected_counts
  rw [h]
  norm_num
  refine ⟨pyRound_toNat_eq (by push_cast; norm_num),
    pyRound_toNat_eq (by push_cast; norm_num),
    pyRound_toNat_eq (by push_cast; norm_num)⟩

theorem expected_counts_331 : expected_counts 3 3 1 = [3, 2, 1] := by
  have h : List.range 3 = [0, 1, 2] := rfl
  unfold expected_counts
  rw [h]
  norm_num
  refine ⟨pyRound_toNat_eq (by push_cast; norm_num),
    pyRound_toNat_eq (by push_cast; norm_num),
    pyRound_toNat_eq (by push_cast; norm_num)⟩

theorem lgwp_ex3 : linear_gradient_weighted_polling ex3sources 6 2 =
    ["a0", "a1", "a2", "a3", "a4", "a5", "b0", "b1", "b2", "b3", "c0", "c1"] := by
  unfold linear_gradient_weighted_polling ex3sources
  norm_num
  rw [expected_counts_362]
  decide

theorem lgwp_shared : linear_gradient_weighted_polling exSharedChunk 3 1 =
    ["a", "a", "c", "e", "d"] := by
  unfold linear_gradient_weighted_polling exSharedChunk
  norm_num
  rw [expected_counts_331]
  decide

theorem firstPass_eq (l : List (EntityRel × ℕ)) :
    firstPass l =
      (l.flatMap (fun p => p.1.sorted_chunks.take (min p.2 p.1.sorted_chunks.length)),
       l.map (fun p => min p.2 p.1.sorted_chunks.length),
       (l.map (fun p => p.2 - min p.2 p.1.sorted_chunks.length)).sum) := by
  induction l with
  | nil => rfl
  | cons p rest ih =>
    obtain ⟨er, expected⟩ := p
    simp [firstPass, ih]

theorem specScan_eq_scanOnce : ∀ (ers : List EntityRel) (us : List ℕ),
    specScan ers us = scanOnce ers us := by
  intro ers
  induction ers with
  | nil => intro us; rfl
  | cons er rest ih =>
    intro us
    cases us with
    | nil => rfl
    | cons u us2 => simp only [specScan, scanOnce, ih]

theorem specRedistribute_eq (ers : List EntityRel) :
    ∀ (k : ℕ) (used : List ℕ) (sel : List String),
    specRedistribute ers k used sel = secondPass ers k used sel := by
  intro k
  induction k with
  | zero => intro used sel; rfl
  | succ n ih =>
    intro used sel
    simp only [specRedistribute, secondPass, specScan_eq_scanOnce]
    cases hscan : scanOnce ers used with
    | none => rfl
    | some p =>
      obtain ⟨us2, c⟩ := p
      exact ih us2 (sel ++ [c])

theorem lgwp_refines : ∀ (ers : List EntityRel) (maxc minc : ℕ), 1 < ers.length →
    linear_gradient_weighted_polling ers maxc minc = allocateSpec ers maxc minc := by
  intro ers maxc minc h
  match ers with
  | [] => simp at h
  | [er] => simp at h
  | a :: b :: rest =>
    unfold linear_gradient_weighted_polling allocateSpec
    dsimp only
    rw [firstPass_eq]
    dsimp only
    rw [specRedistribute_eq]

/-- C1: for more than one ranked source the allocator agrees, on every
input, with the two-pass procedure the specification states -- first
pass min(target_i, available_i) per rank with target_i the rounded
linear interpolation from maxChunksForTop down to minChunksForBottom,
then one-chunk-per-round redistribution of the accumulated shortfall in
rank order, stopping when a full scan allocates nothing (allocateSpec is
that procedure transcribed from the spec); in particular 3 sources of 10
available chunks with maxChunksForTop 6 and minChunksForBottom 2 get
interpolated targets 6, 4, 2 and exactly 12 chunk ids. -/
theorem claim_C1_gradient_allocation :
    (∀ (ers : List EntityRel) (maxc minc : ℕ), 1 < ers.length →
      linear_gradient_weighted_polling ers maxc minc = allocateSpec ers maxc minc) ∧
    expected_counts 3 6 2 = [6, 4, 2] ∧
    linear_gradient_weighted_polling ex3sources 6 2 =
      ["a0", "a1", "a2", "a3", "a4", "a5", "b0", "b1", "b2", "b3", "c0", "c1"] ∧
    (linear_gradient_weighted_polling ex3sources 6 2).length = 12 :=
  ⟨lgwp_refines, expected_counts_362, lgwp_ex3, by rw [lgwp_ex3]; rfl⟩

/-- Witness for C1: the refinement instantiated at the three concrete
ten-chunk sources. -/
theorem claim_C1_witness :
    linear_gradient_weighted_polling ex3sources 6 2 = allocateSpec ex3sources 6 2 :=
  claim_C1_gradient_allocation.1 ex3sources 6 2 (by decide)

theorem flatMap_sublist {β γ : Type} (l : List β) (f g : β → List γ)
    (h : ∀ x ∈ l, List.Sublist (f x) (g x)) :
    List.Sublist (l.flatMap f) (l.flatMap g) := by
  induction l with
  | nil => simp
  | cons a rest ih =>
    simp only [List.flatMap_cons]
    exact List.Sublist.append (h a (List.mem_cons_self a rest))
      (ih (fun x hx => h x (List.mem_cons_of_mem a hx)))

theorem flatMap_congr_mem {β γ : Type} (l : List β) (f g : β → List γ)
    (h : ∀ x ∈ l, f x = g x) : l.flatMap f = l.flatMap g := by
  induction l with
  | nil => rfl
  | cons a rest ih =>
    simp only [List.flatMap_cons]
    rw [h a (List.mem_cons_self a rest), ih (fun x hx => h x (List.mem_cons_of_mem a hx))]

theorem zip_flatMap_fst {β γ : Type} (f : β → List γ) :
    ∀ (l : List β) (l2 : List ℕ), l.length ≤ l2.length →
    (l.zip l2).flatMap (fun p => f p.1) = l.flatMap f := by
  intro l
  induction l with
  | nil => intro l2 _; rfl
  | cons a rest ih =>
    intro l2 hlen
    cases l2 with
    | nil => simp at hlen
    | cons n ns =>
      simp only [List.zip_cons_cons, List.flatMap_cons]
      rw [ih ns (by simpa using hlen)]

theorem expected_counts_length (n maxc minc : ℕ) :
    (expected_counts n maxc minc).length = n :=
  (List.length_map _ _).trans (List.length_range n)

/-- C9 as amended: when every source has at least its first-pass target
available (so no shortfall arises) and the chunk ids across all sources
are pairwise distinct, the allocator output is the rank-order
concatenation of each source's first target_i chunks -- source rank
order, then within-source original order -- and contains no duplicate;
in general a redistribution shortfall is appended after all first-pass
chunks (breaking rank grouping) and an id shared between two sources is
emitted twice (see the counterexample). -/
theorem claim_C9_output_order (ers : List EntityRel) (maxc minc : ℕ)
    (htarget : ∀ p ∈ ers.zip (lgwpTargets ers maxc minc),
      p.2 ≤ p.1.sorted_chunks.length)
    (hnodup : (ers.flatMap (fun er => er.sorted_chunks)).Nodup) :
    linear_gradient_weighted_polling ers maxc minc =
      (ers.zip (lgwpTargets ers maxc minc)).flatMap
        (fun p => p.1.sorted_chunks.take p.2) ∧
    (linear_gradient_weighted_polling ers maxc minc).Nodup := by
  match ers with
  | [] =>
    constructor
    · rfl
    · exact List.nodup_nil
  | [er] =>
    constructor
    · show er.sorted_chunks.take maxc = er.sorted_chunks.take maxc ++ []
      rw [List.append_nil]
    · show (er.sorted_chunks.take maxc).Nodup
      refine List.Nodup.sublist (List.take_sublist _ _) ?_
      simpa using hnodup
  | a :: b :: rest =>
    have hT : lgwpTargets (a :: b :: rest) maxc minc =
        expected_counts (a :: b :: rest).length maxc minc := rfl
    rw [hT] at htarget ⊢
    have hmin : ∀ p ∈ (a :: b :: rest).zip
        (expected_counts (a :: b :: rest).length maxc minc),
        min p.2 p.1.sorted_chunks.length = p.2 :=
      fun p hp => Nat.min_eq_left (htarget p hp)
    have heq : linear_gradient_weighted_polling (a :: b :: rest) maxc minc =
        ((a :: b :: rest).zip
          (expected_counts (a :: b :: rest).length maxc minc)).flatMap
          (fun p => p.1.sorted_chunks.take p.2) := by
      rw [lgwp_refines (a :: b :: rest) maxc minc (by simp)]
      unfold allocateSpec
      dsimp only
      have hTR : (List.map (fun p => p.2 - min p.2 p.1.sorted_chunks.length)
          ((a :: b :: rest).zip
            (expected_counts (a :: b :: rest).length maxc minc))).sum = 0 := by
        apply List.sum_eq_zero
        intro x hx
        obtain ⟨p, hp, rfl⟩ := List.mem_map.mp hx
        rw [hmin p hp]
        omega
      rw [hTR]
      show ((a :: b :: rest).zip _).flatMap _ = _
      exact flatMap_congr_mem _ _ _ (fun p hp => by rw [hmin p hp])
    refine ⟨heq, ?_⟩
    rw [heq]
    have hsub : List.Sublist
        (((a :: b :: rest).zip
          (expected_counts (a :: b :: rest).length maxc minc)).flatMap
          (fun p => p.1.sorted_chunks.take p.2))
        (((a :: b :: rest).zip
          (expected_counts (a :: b :: rest).length maxc minc)).flatMap
          (fun p => p.1.sorted_chunks)) :=
      flatMap_sublist _ _ _ (fun p _ => List.take_sublist _ _)
    have hfull : (((a :: b :: rest).zip
        (expected_counts (a :: b :: rest).length maxc minc)).flatMap
        (fun p => p.1.sorted_chunks)) =
        (a :: b :: rest).flatMap (fun er => er.sorted_chunks) :=
      zip_flatMap_fst _ _ _ (by rw [expected_counts_length])
    exact List.Nodup.sublist (hfull ▸ hsub) hnodup

/-- Counterexample to C9 as stated: on three ranked sources where the
id a is shared by ranks 0 and 1, the allocator emits a twice, and the
redistributed chunk d of the rank-1 source is appended after the
rank-2 chunk e -- the output neither is duplicate-free nor groups chunks
by source rank. -/
theorem claim_C9_counterexample :
    linear_gradient_weighted_polling exSharedChunk 3 1 = ["a", "a", "c", "e", "d"] ∧
    ¬ (linear_gradient_weighted_polling exSharedChunk 3 1).Nodup :=
  ⟨lgwp_shared, by rw [lgwp_shared]; decide⟩

theorem lgwpTargets_ex3 : lgwpTargets ex3sources 6 2 = [6, 4, 2] := by
  show expected_counts ex3sources.length 6 2 = [6, 4, 2]
  exact expected_counts_362

/-- Witness for C9: the amended statement instantiated at the three
ten-chunk sources with pairwise-distinct ids and targets 6, 4, 2, each
below the available ten. -/
theorem claim_C9_witness :
    linear_gradient_weighted_polling ex3sources 6 2 =
      (ex3sources.zip (lgwpTargets ex3sources 6 2)).flatMap
        (fun p => p.1.sorted_chunks.take p.2) ∧
    (linear_gradient_weighted_polling ex3sources 6 2).Nodup :=
  claim_C9_output_order ex3sources 6 2
    (by rw [lgwpTargets_ex3]; decide) (by decide)

end LightRAG
